import Mathlib

/-!
# Verification of the filmwhisper-bitmagnet stream-resolution core

Shallow embedding of the torrent-candidate resolution and stream-synthesis
pipeline: the Stremio identifier parser, the magnet-URI parser, the
best-file selector, the byte formatter, the Premiumize bulk cache check and
the stream assembly in `createStreamsFromTorrents`.  External collaborators
(fetch, the TMDB lookup, the bitmagnet GraphQL search, the Premiumize
direct-link endpoint, the tracker fetch) are modelled as explicit
parameters carrying their observable responses; everything else is
translated from the TypeScript source.
-/

namespace FW

/-! ## JavaScript-semantics helpers -/

/-- Truthiness of a JavaScript string: falsy iff empty. -/
def strTruthy (s : String) : Bool := s != ""

/-- Truthiness of a `string | undefined` value. -/
def optStrTruthy : Option String → Bool
  | some s => s != ""
  | none => false

def isAsciiDigit (c : Char) : Bool := '0' ≤ c && c ≤ '9'

def digitsVal (ds : List Char) : Nat :=
  ds.foldl (fun a c => a * 10 + (c.toNat - 48)) 0

/-- Model of the JavaScript runtime's parseInt(s, 10): skip leading
whitespace, accept one optional sign, read the longest digit run and ignore
any trailing characters; the result is none exactly when parseInt yields
NaN (no digit found). -/
def jsParseInt (s : String) : Option Int :=
  let l := s.data.dropWhile (fun c => c.isWhitespace)
  let signAndRest : Int × List Char :=
    match l with
    | '-' :: r => (-1, r)
    | '+' :: r => (1, r)
    | r => (1, r)
  let ds := signAndRest.2.takeWhile isAsciiDigit
  if ds.isEmpty then none
  else some (signAndRest.1 * (digitsVal ds : Int))

/-- Model of String.prototype.split with a single-character separator. -/
def splitOnChar (sep : Char) : List Char → List (List Char)
  | [] => [[]]
  | c :: cs =>
    let r := splitOnChar sep cs
    if c == sep then [] :: r
    else
      match r with
      | [] => [[c]]
      | h :: t => (c :: h) :: t

def jsSplit (s : String) (sep : Char) : List String :=
  (splitOnChar sep s.data).map (fun l => String.mk l)

def charsStartWith : List Char → List Char → Bool
  | [], _ => true
  | _ :: _, [] => false
  | p :: ps, c :: cs => p == c && charsStartWith ps cs

/-- Model of String.prototype.startsWith. -/
def jsStartsWith (s pat : String) : Bool := charsStartWith pat.data s.data

/-- Model of String.prototype.includes for a single character. -/
def jsIncludesChar (s : String) (c : Char) : Bool := s.data.contains c

def jsIndexOfAux (c : Char) : List Char → Nat → Option Nat
  | [], _ => none
  | x :: xs, i => if x == c then some i else jsIndexOfAux c xs (i + 1)

/-- Model of String.prototype.indexOf for a character: -1 becomes none. -/
def jsIndexOf (c : Char) (l : List Char) : Option Nat := jsIndexOfAux c l 0

def lastIndexOfAux (c : Char) : List Char → Nat → Option Nat → Option Nat
  | [], _, best => best
  | x :: xs, i, best => lastIndexOfAux c xs (i + 1) (if x == c then some i else best)

/-- Model of String.prototype.lastIndexOf for a character. -/
def jsLastIndexOf (c : Char) (l : List Char) : Option Nat := lastIndexOfAux c l 0 none

/-- Model of String.prototype.substring(start): a negative start is clamped
to 0 (so substring(-1) returns the whole string). -/
def jsSubstringFrom (l : List Char) (i : Int) : List Char := l.drop i.toNat

/-- a || b on a `string | undefined` left operand. -/
def jsOrStr (a : Option String) (b : String) : String :=
  match a with
  | some s => if s != "" then s else b
  | none => b

/-- Model of String.prototype.padStart(2, "0"). -/
def padStart2 (s : String) : String :=
  if s.length < 2 then String.mk (List.replicate (2 - s.length) '0') ++ s else s

/-- Insertion-ordered deduplication, the iteration order of a JavaScript
Set built from a list. -/
def dedupKeepFirstAux {α : Type} [BEq α] (seen : List α) : List α → List α
  | [] => []
  | x :: xs =>
    if seen.contains x then dedupKeepFirstAux seen xs
    else x :: dedupKeepFirstAux (seen ++ [x]) xs

def dedupKeepFirst {α : Type} [BEq α] (l : List α) : List α := dedupKeepFirstAux [] l

/-! ## URLSearchParams model -/

def hexDigitVal (c : Char) : Option Nat :=
  if '0' ≤ c && c ≤ '9' then some (c.toNat - 48)
  else if 'a' ≤ c && c ≤ 'f' then some (c.toNat - 87)
  else if 'A' ≤ c && c ≤ 'F' then some (c.toNat - 55)
  else none

/-- application/x-www-form-urlencoded decoding as URLSearchParams performs
it: a plus becomes a space and a percent followed by two hex digits becomes
the character with that code (multi-byte UTF-8 escapes are not modelled);
an ill-formed escape is kept verbatim. -/
def formDecodeAux : Nat → List Char → List Char
  | _, [] => []
  | 0, l => l
  | fuel + 1, c :: rest =>
    if c == '+' then ' ' :: formDecodeAux fuel rest
    else if c == '%' then
      (match rest with
       | a :: b :: rest2 =>
         (match hexDigitVal a, hexDigitVal b with
          | some ha, some hb => Char.ofNat (16 * ha + hb) :: formDecodeAux fuel rest2
          | _, _ => '%' :: formDecodeAux fuel rest)
       | _ => '%' :: formDecodeAux fuel rest)
    else c :: formDecodeAux fuel rest

def formDecode (l : List Char) : List Char := formDecodeAux l.length l

/-- Split a query segment at the first equals sign: the key is everything
before it, the value everything after (empty when there is none). -/
def splitKV (seg : List Char) : List Char × List Char :=
  match seg.dropWhile (fun c => c != '=') with
  | [] => (seg.takeWhile (fun c => c != '='), [])
  | _ :: v => (seg.takeWhile (fun c => c != '='), v)

structure QParam where
  key : String
  value : String
deriving DecidableEq

/-- Model of new URLSearchParams(q): split on ampersands, drop empty
segments, split each segment at its first equals sign and decode both
sides. -/
def parseQueryString (q : String) : List QParam :=
  ((splitOnChar '&' q.data).filter (fun seg => !seg.isEmpty)).map (fun seg =>
    let kv := splitKV seg
    ⟨String.mk (formDecode kv.1), String.mk (formDecode kv.2)⟩)

/-- URLSearchParams.get: the first value stored under the key. -/
def getParam (ps : List QParam) (k : String) : Option String :=
  (ps.find? (fun p => p.key == k)).map (fun p => p.value)

/-- URLSearchParams.getAll: every value stored under the key, in order. -/
def getAllParams (ps : List QParam) (k : String) : List String :=
  (ps.filter (fun p => p.key == k)).map (fun p => p.value)

/-! ## Magnet-URI parser (src torrent helpers, parseMagnetUri) -/

def isHexChar (c : Char) : Bool :=
  isAsciiDigit c || ('a' ≤ c && c ≤ 'f') || ('A' ≤ c && c ≤ 'F')

/-- First match of the regular expression urn:btih:([a-fA-F0-9]...40 times)
against a string: the scan stops at the first position where the literal
prefix urn:btih: is immediately followed by at least forty hex characters,
and the capture is those forty characters. -/
def findBtihCapture : List Char → Option (List Char)
  | [] => none
  | c :: cs =>
    if charsStartWith "urn:btih:".data (c :: cs) then
      (let cap := ((c :: cs).drop 9).take 40
       if cap.length == 40 && cap.all isHexChar then some cap
       else findBtihCapture cs)
    else findBtihCapture cs

structure ParsedMagnetUri where
  infoHash : Option String
  sources : List String
deriving DecidableEq

/-- parseMagnetUri from the torrent helper module: null unless the input is
present and starts with magnet:?; the info hash is the capture of the
btih regular expression against the first xt parameter, lowercased; the
sources are every tr occurrence with empty strings filtered out. -/
def parseMagnetUri (magnetUri : Option String) : Option ParsedMagnetUri :=
  match magnetUri with
  | none => none
  | some m =>
    if !(strTruthy m) || !(jsStartsWith m "magnet:?") then none
    else
      let qchars := jsSubstringFrom m.data (((jsIndexOf '?' m.data).map (Int.ofNat)).getD (-1) + 1)
      let params := parseQueryString (String.mk qchars)
      let infoHash := (getParam params "xt").bind (fun v => findBtihCapture v.data)
      let sources := getAllParams params "tr"
      match infoHash with
      | none => none
      | some h => some ⟨some (String.mk (h.map Char.toLower)), sources.filter (fun s => s != "")⟩

/-! ## Best-file selector (src torrent helpers, findBestFileIndex) -/

structure TFile where
  path : String
  size : Nat
  index : Nat
deriving DecidableEq

def videoExtensions : List String := [".mkv", ".mp4", ".avi", ".mov", ".wmv", ".flv"]

/-- path.substring(path.lastIndexOf(".")).toLowerCase(); when there is no
dot, lastIndexOf is -1 and substring clamps to the whole string. -/
def fileExtension (path : String) : String :=
  String.mk ((jsSubstringFrom path.data
    (((jsLastIndexOf '.' path.data).map (Int.ofNat)).getD (-1))).map Char.toLower)

def isVideoFile (f : TFile) : Bool := videoExtensions.contains (fileExtension f.path)

/-- The six scene-naming patterns built for a season/episode pair, stored
lowercased because the regular expressions carry the ignore-case flag. -/
def episodePatterns (season episode : Int) : List (List Char) :=
  let sp := (padStart2 (toString season)).data
  let ep := (padStart2 (toString episode)).data
  let sn := (toString season).data
  let en := (toString episode).data
  [ 's' :: sp ++ 'e' :: ep,
    's' :: sn ++ 'e' :: ep,
    's' :: sp ++ 'e' :: en,
    's' :: sn ++ 'e' :: en,
    sn ++ 'x' :: ep,
    sn ++ 'x' :: en ]

/-- A word character in the regular-expression sense. -/
def isWordChar (c : Char) : Bool := c.isAlpha || isAsciiDigit c || c == '_'

/-- The guard before the literal: every pattern starts with a word
character, so the alternation of the separator class with a word boundary
holds exactly when the previous character is a non-word character or an
underscore, or the position is the start of the string. -/
def sepOrBoundaryBefore : Option Char → Bool
  | none => true
  | some p => !(isWordChar p) || p == '_'

/-- The guard after the literal, which ends in a digit: the next character
must be a non-word character or an underscore, unless the string ends. -/
def sepOrBoundaryAfter : List Char → Bool
  | [] => true
  | d :: _ => !(isWordChar d) || d == '_'

/-- Match the literal at the head of the string, returning the remainder. -/
def litHere : List Char → List Char → Option (List Char)
  | [], s => some s
  | _ :: _, [] => none
  | p :: ps, c :: cs => if p == c then litHere ps cs else none

def patFoundFrom (lit : List Char) : Option Char → List Char → Bool
  | _, [] => false
  | prev, c :: cs =>
    (sepOrBoundaryBefore prev &&
      (match litHere lit (c :: cs) with
       | some rest => sepOrBoundaryAfter rest
       | none => false))
    || patFoundFrom lit (some c) cs

/-- regex.test(path) for one of the six patterns: some position carries the
literal with the boundary guards on both sides. -/
def patternFound (pathLower : List Char) (lit : List Char) : Bool :=
  patFoundFrom lit none pathLower

def fileMatchesPatterns (pats : Option (List (List Char))) (f : TFile) : Bool :=
  match pats with
  | none => false
  | some ps => ps.any (fun lit => patternFound (f.path.data.map Char.toLower) lit)

/-- Keep the larger file, first seen winning ties (the source compares with
a strict greater-than). -/
def pickLarger (acc : Option TFile) (f : TFile) : Option TFile :=
  match acc with
  | none => some f
  | some g => if f.size > g.size then some f else some g

/-- One iteration of the selection loop: only video files are considered;
the specific-episode slot is updated when a pattern matches, and the
largest-video slot is always updated. -/
def selStep (pats : Option (List (List Char))) (st : Option TFile × Option TFile)
    (f : TFile) : Option TFile × Option TFile :=
  if isVideoFile f then
    ((if fileMatchesPatterns pats f then pickLarger st.1 f else st.1), pickLarger st.2 f)
  else st

/-- The patterns prepared by the selector: present only when both season
and episode are given. -/
def patsOf (season episode : Option Int) : Option (List (List Char)) :=
  match season, episode with
  | some s, some e => some (episodePatterns s e)
  | _, _ => none

/-- findBestFileIndex from the torrent helper module. -/
def findBestFileIndex (files : Option (List TFile)) (season episode : Option Int) :
    Option Nat :=
  match files with
  | none => none
  | some fs =>
    if fs.length == 0 then none
    else
      let pats := patsOf season episode
      let st := fs.foldl (selStep pats) (none, none)
      match st.1 with
      | some f => some f.index
      | none =>
        match st.2 with
        | some f => some f.index
        | none =>
          match fs with
          | [f] => some f.index
          | _ => none

/-! ## Byte formatter (src torrent helpers, formatBytes) -/

def unitIdxAux : Nat → Nat → Nat
  | 0, _ => 0
  | fuel + 1, b => if b < 1024 then 0 else unitIdxAux fuel (b / 1024) + 1

/-- Math.floor(Math.log bytes / Math.log 1024) for a positive integer byte
count, modelled exactly as the floor of the base-1024 logarithm (the fuel
argument only drives the recursion; the input bounds it). -/
def unitIdx (b : Nat) : Nat := unitIdxAux b b

def byteSizes : List String := ["Bytes", "KB", "MB", "GB", "TB", "PB", "EB", "ZB", "YB"]

/-- Round num/den to the nearest integer, halves up. -/
def roundHalfUp (num den : Nat) : Nat := (2 * num + den) / (2 * den)

def natPadLeftZeros (s : String) (w : Nat) : String :=
  if s.length < w then String.mk (List.replicate (w - s.length) '0') ++ s else s

def dropTrailingZeros (l : List Char) : List Char :=
  (l.reverse.dropWhile (fun c => c == '0')).reverse

/-- Print n / 10^dm the way JavaScript prints parseFloat(x.toFixed(dm)):
fixed-point with dm decimals, then trailing zeros and a bare decimal point
removed. -/
def renderFixed (n : Nat) (dm : Nat) : String :=
  let ip := n / 10 ^ dm
  let fracDigits := dropTrailingZeros (natPadLeftZeros (toString (n % 10 ^ dm)) dm).data
  if fracDigits.isEmpty then toString ip
  else toString ip ++ "." ++ String.mk fracDigits

/-- formatBytes from the torrent helper module, at its default of two
decimals (the only arity the code base uses); the double-precision
logarithm, division and toFixed are modelled with exact arithmetic. -/
def formatBytes (bytes : Nat) : String :=
  if bytes == 0 then "0 Bytes"
  else
    let i := unitIdx bytes
    renderFixed (roundHalfUp (bytes * 10 ^ 2) (1024 ^ i)) 2 ++ " " ++ byteSizes.getD i "undefined"

/-! ## Stremio identifier parser (stremio_helpers.ts, parseStremioId) -/

inductive SearchType
  | movie
  | series
deriving DecidableEq

structure ParsedId where
  imdbId : String
  season : Option Int
  episode : Option Int
  searchType : SearchType
deriving DecidableEq

/-- parseStremioId from stremio_helpers.ts. -/
def parseStremioId (type id : String) : Option ParsedId :=
  let searchType? : Option SearchType :=
    if type == "movie" then some .movie
    else if type == "series" then some .series
    else none
  match searchType? with
  | none => none
  | some st =>
    if st == .series && jsIncludesChar id ':' then
      (let parts := jsSplit id ':'
       if parts.length == 3 && jsStartsWith (parts.getD 0 "") "tt" then
         match jsParseInt (parts.getD 1 ""), jsParseInt (parts.getD 2 "") with
         | some s, some e => some ⟨parts.getD 0 "", some s, some e, st⟩
         | _, _ => none
       else none)
    else if !(jsStartsWith id "tt") then none
    else some ⟨id, none, none, st⟩

/-! ## Query builder (stremio_helpers.ts, fetchAndSearchTorrents) -/

structure TorrentInfo where
  title : String
  magnetUrl : Option String
  size : Option Nat
  resolution : String
  seeders : Nat
  peers : Nat
  videoCodec : Option String
  videoSource : Option String
  languages : List String
  files : Option (List TFile)
deriving DecidableEq

structure TmdbDetails where
  title : String
  year : Option Nat
deriving DecidableEq

structure SearchResult where
  torrents : List TorrentInfo
  title : Option String
deriving DecidableEq

/-- The interpolation of an optional year: a leading space plus the year
when it is truthy, empty otherwise. -/
def yearSuffix : Option Nat → String
  | some y => if y != 0 then " " ++ toString y else ""
  | none => ""

/-- fetchAndSearchTorrents from stremio_helpers.ts, with the two external
collaborators as parameters: the TMDB lookup outcome (consulted only when
an API key is configured) and the bitmagnet search as a function from the
query string to its results.  Alongside the result it returns the list of
query strings sent to the backend, in order. -/
def fetchAndSearchTorrents (parsedId : ParsedId) (tmdbApiKey : Option String)
    (tmdbDetails : Option TmdbDetails) (search : String → List TorrentInfo) :
    Option SearchResult × List String :=
  let lk : String × Option String × Option Nat :=
    if optStrTruthy tmdbApiKey then
      match tmdbDetails with
      | some d =>
        let baseQuery := d.title ++ yearSuffix d.year
        (match parsedId.searchType, parsedId.season, parsedId.episode with
         | .series, some s, some e =>
           (baseQuery ++ " S" ++ padStart2 (toString s) ++ "E" ++ padStart2 (toString e),
            some d.title, d.year)
         | _, _, _ => (baseQuery, some d.title, d.year))
      | none => (parsedId.imdbId, none, none)
    else (parsedId.imdbId, none, none)
  let searchQuery := lk.1
  let title := lk.2.1
  let year := lk.2.2
  let r1 := search searchQuery
  let retry := r1.length == 0 && parsedId.searchType == .series &&
    parsedId.season.isSome && optStrTruthy title
  if retry then
    let seasonQuery := (title.getD "") ++ yearSuffix year ++ " S" ++
      padStart2 (toString (parsedId.season.getD 0))
    let r2 := search seasonQuery
    ((if r2.length == 0 then none else some ⟨r2, title⟩), [searchQuery, seasonQuery])
  else
    ((if r1.length == 0 then none else some ⟨r1, title⟩), [searchQuery])

/-! ## Premiumize bulk cache check (premiumize.ts, checkPremiumizeCacheBulk) -/

structure CacheStatus where
  isCached : Bool
  filename : Option String
deriving DecidableEq

/-- A JavaScript object used as a string-keyed record, as an ordered
association list with unique keys. -/
abbrev CacheMap := List (String × CacheStatus)

/-- results[k] = v: overwrite in place, or append a fresh key. -/
def setRec : CacheMap → String → CacheStatus → CacheMap
  | [], k, v => [(k, v)]
  | (k', v') :: rest, k, v =>
    if k' == k then (k, v) :: rest else (k', v') :: setRec rest k v

/-- results[k] as an optional read. -/
def getRec (m : CacheMap) (k : String) : Option CacheStatus :=
  (m.find? (fun p => p.1 == k)).map (fun p => p.2)

/-- An element of the JSON response array, as far as the code inspects it:
either a boolean or anything else (only strict equality with true is
tested). -/
inductive BulkEntry
  | jbool (b : Bool)
  | jother
deriving DecidableEq

/-- The parsed JSON body of the cache-check endpoint: its status string,
its response field (none when not an array) and its filename field
(none when not an array; entries are either strings or null). -/
structure BulkPayload where
  status : String
  response : Option (List BulkEntry)
  filename : Option (List (Option String))
deriving DecidableEq

/-- The observable outcome of the fetch to the cache-check endpoint. -/
inductive BulkOutcome
  | networkError
  | httpError
  | parseError
  | payload (p : BulkPayload)
deriving DecidableEq

/-- The per-index loop of the success path. -/
def bulkSuccessLoop (hashes : List String) (resp : List BulkEntry)
    (fns : Option (List (Option String))) (init : CacheMap) : CacheMap :=
  (List.range hashes.length).foldl (fun m i =>
    let hash := hashes.getD i ""
    let isCached := resp.getD i .jother == .jbool true
    let filename : Option String :=
      match fns with
      | some fl =>
        if i < fl.length then
          (match fl.getD i none with
           | some s => if s != "" then some s else none
           | none => none)
        else none
      | none => none
    setRec m hash ⟨isCached, filename⟩) init

/-- checkPremiumizeCacheBulk: the result record is pre-seeded with a
negative status for every requested hash, and every failure path (network
error, non-success HTTP status, unparseable body, status other than
success, response not an array, or response length differing from the
request) is caught and leaves those defaults in place. -/
def checkPremiumizeCacheBulk (infoHashes : List String) (outcome : BulkOutcome) :
    CacheMap :=
  if infoHashes.isEmpty then []
  else
    let defaults := infoHashes.foldl (fun m h => setRec m h ⟨false, none⟩) []
    match outcome with
    | .networkError => defaults
    | .httpError => defaults
    | .parseError => defaults
    | .payload p =>
      match p.response with
      | none => defaults
      | some arr =>
        if p.status == "success" && arr.length == infoHashes.length then
          bulkSuccessLoop infoHashes arr p.filename defaults
        else defaults

/-- The failure modes of the bulk call for a given request list: every one
of them makes checkPremiumizeCacheBulk fall back to the defaults. -/
def bulkFailure (outcome : BulkOutcome) (hashes : List String) : Prop :=
  match outcome with
  | .payload p =>
    p.status ≠ "success" ∨ p.response = none ∨
      (∀ arr, p.response = some arr → arr.length ≠ hashes.length)
  | _ => True

/-! ## Stream assembly (stremio_helpers.ts, createStreamsFromTorrents) -/

/-- A Stremio stream object, with the fields this code base writes. -/
structure Stream where
  name : String
  title : String
  url : Option String
  infoHash : Option String
  fileIdx : Option Nat
  sources : Option (List String)
  behaviorHintsBingeGroup : Option String
deriving DecidableEq

/-- Minimal projection of the addon configuration: the fields used by the
stream-assembly component (the remaining fields configure the search
backend and are outside these claims). -/
structure Config where
  premiumizeApiKey : Option String
  tmdbApiKey : Option String
deriving DecidableEq

/-- The info hash a candidate contributes, via the magnet parser. -/
def candidateHash (t : TorrentInfo) : Option String :=
  (parseMagnetUri t.magnetUrl).bind (fun pm => pm.infoHash)

def joinDetails (items : List (Option String)) : String :=
  String.intercalate " | " (items.filterMap id)

def resolutionLabel (t : TorrentInfo) : String :=
  if t.resolution != "" then t.resolution else "N/A"

def codecDetail (t : TorrentInfo) : Option String :=
  match t.videoCodec with
  | some c => if c != "" then some ("🎬 " ++ c) else none
  | none => none

def sourceDetail (t : TorrentInfo) : Option String :=
  match t.videoSource with
  | some s => if s != "" then some ("💿 " ++ s) else none
  | none => none

def langDetail (t : TorrentInfo) : Option String :=
  if t.languages.length > 0 then some ("🗣️ " ++ String.intercalate ", " t.languages)
  else none

/-- The detail line of a Premiumize stream. -/
def premiumizeDetails (t : TorrentInfo) : String :=
  joinDetails [some ("💾 " ++ formatBytes (t.size.getD 0)), some "⚡ Premiumize",
    some ("📺 " ++ resolutionLabel t), codecDetail t, sourceDetail t, langDetail t]

/-- The detail line of a fallback torrent stream. -/
def fallbackDetails (t : TorrentInfo) : String :=
  joinDetails [some ("💾 " ++ formatBytes (t.size.getD 0)),
    some ("👤 " ++ toString t.seeders), some ("📺 " ++ resolutionLabel t),
    codecDetail t, sourceDetail t, langDetail t]

/-- The stream built for a resolved Premiumize candidate. -/
def mkPremiumizeStream (t : TorrentInfo) (cs : CacheStatus) (infoHash : Option String)
    (link : String) : Stream :=
  ⟨"[PM] FW Bitmagnet", (cs.filename.getD "null") ++ "\n" ++ premiumizeDetails t,
    some link, none, none, none, some ("premiumize-" ++ infoHash.getD "")⟩

/-- The locally built search hint handed to the direct-link endpoint: the
preferred title or the candidate's own, with the season/episode suffix for
series requests. -/
def premSearchQuery (parsedId : ParsedId) (tmdbTitle : Option String)
    (t : TorrentInfo) : String :=
  let q0 := jsOrStr tmdbTitle t.title
  match parsedId.searchType, parsedId.season, parsedId.episode with
  | .series, some s, some e =>
    q0 ++ " S" ++ padStart2 (toString s) ++ "E" ++ padStart2 (toString e)
  | _, _, _ => q0

/-- processPremiumizeCandidate, with the direct-link endpoint as a function
from the magnet URL and the locally built search hint to its optional
response. -/
def processPremiumizeCandidate (directLink : String → String → Option String)
    (t : TorrentInfo) (cs : CacheStatus) (parsedId : ParsedId)
    (tmdbTitle : Option String) : Option Stream :=
  let infoHash := candidateHash t
  if !(optStrTruthy infoHash) || !(optStrTruthy t.magnetUrl) then none
  else
    match directLink (t.magnetUrl.getD "") (premSearchQuery parsedId tmdbTitle t) with
    | some link => if link != "" then some (mkPremiumizeStream t cs infoHash link) else none
    | none => none

/-- The stream built for a fallback candidate. -/
def mkFallbackStream (parsedId : ParsedId) (additionalTrackers : List String)
    (t : TorrentInfo) (parsedMagnet : Option ParsedMagnetUri)
    (infoHash : Option String) : Stream :=
  let fileIndex := findBestFileIndex t.files parsedId.season parsedId.episode
  let streamTitle :=
    (if strTruthy t.title then t.title else infoHash.getD "undefined") ++ "\n" ++
      fallbackDetails t
  let existingTrackers :=
    (match parsedMagnet with
     | some pm => pm.sources
     | none => []).map (fun s => "tracker:" ++ s)
  let fetchedTrackers := additionalTrackers.map (fun s => "tracker:" ++ s)
  let allTrackers := dedupKeepFirst (existingTrackers ++ fetchedTrackers)
  ⟨"[TORRENT] FW Bitmagnet", streamTitle, none,
    (if optStrTruthy infoHash then infoHash else none), fileIndex,
    (if allTrackers.length > 0 then some allTrackers else none), none⟩

/-- The fallback map callback in createStreamsFromTorrents: skip a
candidate whose magnet URL is present but unparseable, skip one with
neither a title nor an info hash, and otherwise build the torrent stream. -/
def streamForFallback (parsedId : ParsedId) (additionalTrackers : List String)
    (t : TorrentInfo) : Option Stream :=
  let step : Option (Option ParsedMagnetUri × Option String) :=
    if optStrTruthy t.magnetUrl then
      match parseMagnetUri t.magnetUrl with
      | none => none
      | some pm => some (some pm, pm.infoHash)
    else some (none, none)
  match step with
  | none => none
  | some (parsedMagnet, infoHash) =>
    if !(strTruthy t.title) && !(optStrTruthy infoHash) then none
    else some (mkFallbackStream parsedId additionalTrackers t parsedMagnet infoHash)

/-- The arguments of one createStreamsFromTorrents run, the external
collaborators included as their observable behaviour: the direct-link
endpoint as a function, the fetched tracker list, and the outcome of the
bulk cache-check call. -/
structure StreamArgs where
  searchResults : List TorrentInfo
  parsedId : ParsedId
  tmdbTitle : Option String
  config : Config
  directLink : String → String → Option String
  trackers : List String
  bulk : BulkOutcome

/-- The hashes submitted to the bulk check: each candidate's parsed hash,
falsy values filtered out. -/
def infoHashesToCheck (searchResults : List TorrentInfo) : List String :=
  (searchResults.map candidateHash).filterMap (fun h? =>
    match h? with
    | some h => if h != "" then some h else none
    | none => none)

/-- premiumizeResultsMap: populated only when an API key is configured and
at least one hash parsed. -/
def bulkCacheMap (a : StreamArgs) : CacheMap :=
  if optStrTruthy a.config.premiumizeApiKey then
    (let hs := infoHashesToCheck a.searchResults
     if hs.length > 0 then checkPremiumizeCacheBulk hs a.bulk else [])
  else []

/-- One iteration of the first partition pass. -/
def partitionStep (apiKey : Option String) (m : CacheMap)
    (acc : List (TorrentInfo × CacheStatus) × List TorrentInfo) (t : TorrentInfo) :
    List (TorrentInfo × CacheStatus) × List TorrentInfo :=
  let infoHash := candidateHash t
  if !(optStrTruthy apiKey) || !(optStrTruthy infoHash) then (acc.1, acc.2 ++ [t])
  else
    match getRec m (infoHash.getD "") with
    | some cs =>
      if cs.isCached && optStrTruthy cs.filename then (acc.1 ++ [(t, cs)], acc.2)
      else (acc.1, acc.2 ++ [t])
    | none => (acc.1, acc.2 ++ [t])

/-- The first pass over the search results: Premiumize candidates and the
initial fallback list. -/
def partitionResults (a : StreamArgs) :
    List (TorrentInfo × CacheStatus) × List TorrentInfo :=
  a.searchResults.foldl (partitionStep a.config.premiumizeApiKey (bulkCacheMap a)) ([], [])

def premCandidates (a : StreamArgs) : List (TorrentInfo × CacheStatus) :=
  (partitionResults a).1

def initialFallback (a : StreamArgs) : List TorrentInfo := (partitionResults a).2

/-- The resolved Premiumize streams, nulls filtered, order preserved. -/
def premiumizeStreams (a : StreamArgs) : List Stream :=
  ((premCandidates a).map (fun tc =>
    processPremiumizeCandidate a.directLink tc.1 tc.2 a.parsedId a.tmdbTitle)).filterMap id

/-- The fallback list after failed Premiumize candidates are pushed back
(the concurrent pushes are sequenced in candidate order). -/
def finalFallback (a : StreamArgs) : List TorrentInfo :=
  initialFallback a ++ (premCandidates a).filterMap (fun tc =>
    match processPremiumizeCandidate a.directLink tc.1 tc.2 a.parsedId a.tmdbTitle with
    | none => some tc.1
    | some _ => none)

def fallbackStreams (a : StreamArgs) : List Stream :=
  (finalFallback a).filterMap (streamForFallback a.parsedId a.trackers)

/-- The keys of the deduplication Map, in first-occurrence order. -/
def streamKeys (l : List Stream) : List (Option String) :=
  dedupKeepFirst (l.map (fun s => s.infoHash))

/-- new Map(list.map(s entry [s.infoHash, s])).values(): keys keep their
first-insertion position while a later entry with the same key overwrites
the stored stream, so each key yields the last stream carrying it. -/
def jsMapDedup (l : List Stream) : List Stream :=
  (streamKeys l).filterMap (fun k => (l.filter (fun s => s.infoHash == k)).getLast?)

/-- The final gate: a URL, or the fallback branding with an info hash and a
title. -/
def validStream (s : Stream) : Bool :=
  optStrTruthy s.url ||
    (s.name == "[TORRENT] FW Bitmagnet" && optStrTruthy s.infoHash && strTruthy s.title)

/-- createStreamsFromTorrents from stremio_helpers.ts. -/
def createStreamsFromTorrents (a : StreamArgs) : List Stream :=
  ((premiumizeStreams a) ++ jsMapDedup (fallbackStreams a)).filter validStream

/-! ## Specification-side definitions -/

/-- The best-file selector as the specification words it: the largest
matching video file's index if one exists, else the largest video file's
index, else the single file's index, else none (largest meaning ties are
broken towards the first seen). -/
def bestFileSpec (files : Option (List TFile)) (season episode : Option Int) :
    Option Nat :=
  match files with
  | none => none
  | some fs =>
    let pats := patsOf season episode
    match (fs.filter (fun f => isVideoFile f && fileMatchesPatterns pats f)).foldl
        pickLarger none with
    | some f => some f.index
    | none =>
      match (fs.filter isVideoFile).foldl pickLarger none with
      | some f => some f.index
      | none =>
        match fs with
        | [f] => some f.index
        | _ => none

/-- A magnet URI built from an info hash and a tracker list, for the
round-trip property. -/
def mkMagnet (h : String) (trs : List String) : String :=
  String.mk ("magnet:?xt=urn:btih:".data ++ h.data ++
    (trs.map (fun t => "&tr=".data ++ t.data)).flatten)

/-- A character that passes through the query-string round trip verbatim:
not a separator, not an escape introducer. -/
def urlPlain (c : Char) : Bool := c != '&' && c != '=' && c != '%' && c != '+'

/-! ## Concrete inputs used by the closed checks -/

def hashA : String := "aaaaaaaaaaaaaaaaaaaaaaaaaaaaaaaaaaaaaaaa"

def magnetA : String :=
  "magnet:?xt=urn:btih:AAAAAAAAAAAAAAAAAAAAAAAAAAAAAAAAAAAAAAAA&tr=udp://t1"

def magnetB : String :=
  "magnet:?xt=urn:btih:bbbbbbbbbbbbbbbbbbbbbbbbbbbbbbbbbbbbbbbb"

def magnetC : String :=
  "magnet:?xt=urn:btih:0123456789012345678901234567890123456789"

def torrentA : TorrentInfo := ⟨"A", some magnetA, some 0, "720p", 5, 1, none, none, [], none⟩

/-- Same magnet as torrentA, different title: an info-hash duplicate. -/
def torrentA2 : TorrentInfo := ⟨"B", some magnetA, some 0, "720p", 5, 1, none, none, [], none⟩

def torrentB : TorrentInfo := ⟨"T2", some magnetB, some 100, "1080p", 3, 0, none, none, [], none⟩

def torrentC : TorrentInfo := ⟨"T3", some magnetC, none, "", 9, 2, none, none, [], none⟩

def movieId : ParsedId := ⟨"tt0111161", none, none, .movie⟩

/-- Two fallback candidates sharing one info hash, no debrid key. -/
def c3Args : StreamArgs :=
  ⟨[torrentA, torrentA2], movieId, none, ⟨none, none⟩, fun _ _ => none, [], .networkError⟩

/-- Three candidates with parseable hashes, a debrid key, and a bulk call
that fails with a network error. -/
def c1Args : StreamArgs :=
  ⟨[torrentA, torrentB, torrentC], movieId, none, ⟨some "key", none⟩,
    fun _ _ => some "http://link", [], .networkError⟩

/-- A search backend double: empty for the episode query, one hit for the
season-only query. -/
def c8SearchFn : String → List TorrentInfo :=
  fun q => if q == "X 2020 S01" then [torrentB] else []

/-! ## Helper lemmas -/

theorem getLast?_mem {α : Type} {l : List α} {a : α} (h : l.getLast? = some a) :
    a ∈ l := by
  have hx : a ∈ l.getLast? := h
  obtain ⟨hne, hq⟩ := List.mem_getLast?_eq_getLast hx
  rw [hq]
  exact List.getLast_mem hne

theorem append_mid_newline_ne_empty (x y : String) : x ++ "\n" ++ y ≠ "" := by
  intro h
  have hlen := congrArg String.length h
  simp [String.length_append] at hlen
  exact absurd hlen.1.2 (by decide)

/-! ## C9: season-less series identifiers -/

/-- C9: a series request whose identifier starts with tt and contains no
colon parses successfully, season and episode both absent. -/
theorem c9_seasonless_series_accepted (id : String)
    (hcolon : jsIncludesChar id ':' = false) (htt : jsStartsWith id "tt" = true) :
    parseStremioId "series" id = some ⟨id, none, none, SearchType.series⟩ := by
  unfold parseStremioId
  simp [hcolon, htt]

theorem c9_witness :
    jsIncludesChar "tt0111161" ':' = false ∧ jsStartsWith "tt0111161" "tt" = true ∧
      parseStremioId "series" "tt0111161" =
        some ⟨"tt0111161", none, none, SearchType.series⟩ :=
  ⟨by decide, by decide, c9_seasonless_series_accepted "tt0111161" (by decide) (by decide)⟩

/-! ## C4: series identifier validation -/

/-- C4 counterexample: the series identifier tt1:-1:2 is accepted, with a
negative season, so parser success does not require the season part to be
a non-negative integer. -/
theorem c4_counterexample :
    parseStremioId "series" "tt1:-1:2" =
        some ⟨"tt1", some (-1), some 2, SearchType.series⟩ ∧
      ¬ (0 : Int) ≤ -1 := by
  exact ⟨by decide, by decide⟩

/-- C4 amended: for a series identifier containing a colon, the parser
succeeds exactly when the identifier has three colon-delimited parts, the
first starting with tt and the second and third carrying a parseable
leading integer under parseInt semantics (optional sign, at least one
digit, trailing characters ignored — the value may be negative); on
success the result is the complete record built from those parts, never a
partial one. -/
theorem c4_amended (id : String) (hc : jsIncludesChar id ':' = true) :
    (parseStremioId "series" id ≠ none ↔
      ((jsSplit id ':').length = 3 ∧
        jsStartsWith ((jsSplit id ':').getD 0 "") "tt" = true ∧
        (jsParseInt ((jsSplit id ':').getD 1 "")).isSome = true ∧
        (jsParseInt ((jsSplit id ':').getD 2 "")).isSome = true)) ∧
    (∀ p, parseStremioId "series" id = some p →
      p = ⟨(jsSplit id ':').getD 0 "",
           jsParseInt ((jsSplit id ':').getD 1 ""),
           jsParseInt ((jsSplit id ':').getD 2 ""), SearchType.series⟩) := by
  unfold parseStremioId
  simp only [hc]
  by_cases hl : (jsSplit id ':').length = 3
  · by_cases htt : jsStartsWith ((jsSplit id ':').getD 0 "") "tt" = true
    · cases h1 : jsParseInt ((jsSplit id ':').getD 1 "") with
      | none =>
        simp [hl] at htt h1
        simp [hl, htt, h1]
      | some s =>
        cases h2 : jsParseInt ((jsSplit id ':').getD 2 "") with
        | none =>
          simp [hl] at htt h1 h2
          simp [hl, htt, h1, h2]
        | some e =>
          simp [hl] at htt h1 h2
          simp [hl, htt, h1, h2]
    · simp only [Bool.not_eq_true] at htt
      simp [hl] at htt
      simp [hl, htt]
  · simp [hl]

theorem c4_witness :
    jsIncludesChar "tt7654321:5:12" ':' = true ∧
      ((parseStremioId "series" "tt7654321:5:12" ≠ none ↔
        ((jsSplit "tt7654321:5:12" ':').length = 3 ∧
          jsStartsWith ((jsSplit "tt7654321:5:12" ':').getD 0 "") "tt" = true ∧
          (jsParseInt ((jsSplit "tt7654321:5:12" ':').getD 1 "")).isSome = true ∧
          (jsParseInt ((jsSplit "tt7654321:5:12" ':').getD 2 "")).isSome = true)) ∧
      (∀ p, parseStremioId "series" "tt7654321:5:12" = some p →
        p = ⟨(jsSplit "tt7654321:5:12" ':').getD 0 "",
             jsParseInt ((jsSplit "tt7654321:5:12" ':').getD 1 ""),
             jsParseInt ((jsSplit "tt7654321:5:12" ':').getD 2 ""), SearchType.series⟩)) :=
  ⟨by decide, c4_amended "tt7654321:5:12" (by decide)⟩

/-! ## C5 helper lemmas: the query-string round trip -/

theorem hex_plain (c : Char) (h : isHexChar c = true) : urlPlain c = true := by
  unfold urlPlain
  simp only [Bool.and_eq_true, bne_iff_ne, ne_eq]
  refine ⟨⟨⟨?_, ?_⟩, ?_⟩, ?_⟩ <;>
    · intro heq
      subst heq
      revert h
      decide

theorem formDecodeAux_plain (fuel : Nat) :
    ∀ l : List Char, l.length ≤ fuel → (∀ c ∈ l, urlPlain c = true) →
      formDecodeAux fuel l = l := by
  induction fuel with
  | zero =>
    intro l hl _
    cases l with
    | nil => rfl
    | cons c cs => simp at hl
  | succ fuel ih =>
    intro l hl hp
    cases l with
    | nil => rfl
    | cons c cs =>
      have hc := hp c (by simp)
      simp only [urlPlain, Bool.and_eq_true, bne_iff_ne, ne_eq] at hc
      show formDecodeAux (fuel + 1) (c :: cs) = c :: cs
      simp only [formDecodeAux]
      rw [if_neg (by simpa using hc.2), if_neg (by simpa using hc.1.2)]
      rw [ih cs (by simpa using hl) (fun d hd => hp d (by simp [hd]))]

theorem formDecode_plain (l : List Char) (hp : ∀ c ∈ l, urlPlain c = true) :
    formDecode l = l :=
  formDecodeAux_plain l.length l le_rfl hp

theorem splitOnChar_no_sep (sep : Char) (s : List Char)
    (h : ∀ c ∈ s, (c == sep) = false) : splitOnChar sep s = [s] := by
  induction s with
  | nil => rfl
  | cons c cs ih =>
    simp only [splitOnChar]
    rw [if_neg (by simpa using h c (by simp))]
    rw [ih (fun d hd => h d (by simp [hd]))]

theorem splitOnChar_append (sep : Char) (s rest : List Char)
    (h : ∀ c ∈ s, (c == sep) = false) :
    splitOnChar sep (s ++ sep :: rest) = s :: splitOnChar sep rest := by
  induction s with
  | nil => simp [splitOnChar]
  | cons c cs ih =>
    simp only [List.cons_append, splitOnChar, List.append_eq]
    rw [if_neg (by simpa using h c (by simp))]
    rw [ih (fun d hd => h d (by simp [hd]))]

theorem splitOnChar_concat (sep : Char) (segs : List (List Char)) :
    ∀ first : List Char, (∀ c ∈ first, (c == sep) = false) →
      (∀ seg ∈ segs, ∀ c ∈ seg, (c == sep) = false) →
      splitOnChar sep (first ++ (segs.map (fun s => sep :: s)).flatten) =
        first :: segs := by
  induction segs with
  | nil =>
    intro first hf _
    simpa using splitOnChar_no_sep sep first hf
  | cons seg segs ih =>
    intro first hf hs
    have hshape : first ++ ((seg :: segs).map (fun s => sep :: s)).flatten =
        first ++ sep :: (seg ++ (segs.map (fun s => sep :: s)).flatten) := by
      simp
    rw [hshape, splitOnChar_append sep first _ hf]
    rw [ih seg (hs seg (by simp)) (fun sg hm => hs sg (by simp [hm]))]

theorem dropWhile_key (k v : List Char) (hk : ∀ c ∈ k, (c == '=') = false) :
    (k ++ '=' :: v).dropWhile (fun c => c != '=') = '=' :: v := by
  induction k with
  | nil => simp [List.dropWhile_cons]
  | cons c cs ih =>
    simp only [List.cons_append, List.dropWhile_cons]
    rw [if_pos (by simpa using hk c (by simp))]
    exact ih (fun d hd => hk d (by simp [hd]))

theorem takeWhile_key (k v : List Char) (hk : ∀ c ∈ k, (c == '=') = false) :
    (k ++ '=' :: v).takeWhile (fun c => c != '=') = k := by
  induction k with
  | nil => simp [List.takeWhile_cons]
  | cons c cs ih =>
    simp only [List.cons_append, List.takeWhile_cons]
    rw [if_pos (by simpa using hk c (by simp))]
    rw [ih (fun d hd => hk d (by simp [hd]))]

theorem splitKV_eq (k v : List Char) (hk : ∀ c ∈ k, (c == '=') = false) :
    splitKV (k ++ '=' :: v) = (k, v) := by
  unfold splitKV
  rw [dropWhile_key k v hk, takeWhile_key k v hk]

theorem charsStartWith_append_self (p y : List Char) : charsStartWith p (p ++ y) = true := by
  induction p with
  | nil => rfl
  | cons c cs ih => simp [charsStartWith, ih]

theorem plain_not_amp (c : Char) (h : urlPlain c = true) : (c == '&') = false := by
  unfold urlPlain at h
  simp only [Bool.and_eq_true, bne_iff_ne, ne_eq] at h
  simpa using h.1.1.1

theorem findBtihCapture_exact (x : List Char) (hlen : x.length = 40)
    (hhex : x.all isHexChar = true) :
    findBtihCapture ("urn:btih:".data ++ x) = some x := by
  have htake : x.take 40 = x := by
    rw [← hlen]
    exact List.take_length x
  rw [show ("urn:btih:".data : List Char) = ['u', 'r', 'n', ':', 'b', 't', 'i', 'h', ':']
    from by decide]
  simp [findBtihCapture, charsStartWith, htake, hlen, hhex]

/-! ## C5: the magnet parser -/

/-- C5 counterexample: a magnet URI carrying the same tracker twice parses
to a source list that still contains both occurrences — the parser does
not exclude duplicate trackers. -/
theorem c5_counterexample :
    parseMagnetUri (some
        "magnet:?xt=urn:btih:AAAAAAAAAAAAAAAAAAAAAAAAAAAAAAAAAAAAAAAA&tr=udp://a&tr=udp://a") =
      some ⟨some "aaaaaaaaaaaaaaaaaaaaaaaaaaaaaaaaaaaaaaaa", ["udp://a", "udp://a"]⟩ ∧
    (["udp://a", "udp://a"] : List String) ≠ ["udp://a"] :=
  ⟨by decide, by decide⟩

/-- C5 amended: the parser returns none for an absent input or one not
starting with magnet:? , and a magnet URI built from a forty-hex-character
info hash H and trackers T1..Tn (trackers free of the four query
metacharacters) parses back to H lowercased together with all tr
occurrences in order — empty strings excluded, duplicates retained. -/
theorem c5_amended :
    (∀ m : Option String, (∀ s, m = some s → jsStartsWith s "magnet:?" = false) →
      parseMagnetUri m = none) ∧
    (∀ (h : String) (trs : List String), h.length = 40 → h.data.all isHexChar = true →
      (∀ t ∈ trs, ∀ c ∈ t.data, urlPlain c = true) →
      parseMagnetUri (some (mkMagnet h trs)) =
        some ⟨some (String.mk (h.data.map Char.toLower)),
          trs.filter (fun t => t != "")⟩) := by
  constructor
  · intro m hm
    cases m with
    | none => rfl
    | some s =>
      have hsw := hm s rfl
      unfold parseMagnetUri
      simp [hsw]
  · intro h trs hlen hhex htrs
    have hplain : ∀ c ∈ h.data, urlPlain c = true := by
      intro c hc
      exact hex_plain c (List.all_eq_true.mp hhex c hc)
    have hlit8 : ("magnet:?".data : List Char) =
        ['m', 'a', 'g', 'n', 'e', 't', ':', '?'] := by decide
    have hdata : (mkMagnet h trs).data =
        "magnet:?".data ++ ("xt=urn:btih:".data ++ h.data ++
          (trs.map (fun t => "&tr=".data ++ t.data)).flatten) := by
      show "magnet:?xt=urn:btih:".data ++ h.data ++ _ = _
      rw [show ("magnet:?xt=urn:btih:".data : List Char) =
        "magnet:?".data ++ "xt=urn:btih:".data from by decide]
      simp [List.append_assoc]
    have htruthy : strTruthy (mkMagnet h trs) = true := by
      unfold strTruthy
      simp only [bne_iff_ne, ne_eq]
      intro heq
      have hnil : (mkMagnet h trs).data = [] := by rw [heq]
      rw [hdata, hlit8] at hnil
      simp at hnil
    have hsw : jsStartsWith (mkMagnet h trs) "magnet:?" = true := by
      unfold jsStartsWith
      rw [hdata]
      exact charsStartWith_append_self _ _
    have hidx : jsIndexOf '?' (mkMagnet h trs).data = some 7 := by
      rw [hdata, hlit8]
      simp [jsIndexOf, jsIndexOfAux]
    have hquery : jsSubstringFrom (mkMagnet h trs).data
        (((jsIndexOf '?' (mkMagnet h trs).data).map Int.ofNat).getD (-1) + 1) =
        "xt=urn:btih:".data ++ h.data ++
          (trs.map (fun t => "&tr=".data ++ t.data)).flatten := by
      rw [hidx, hdata, hlit8]
      simp [jsSubstringFrom, List.append_assoc]
    have hsegs : splitOnChar '&' ("xt=urn:btih:".data ++ h.data ++
        (trs.map (fun t => "&tr=".data ++ t.data)).flatten) =
        ("xt=urn:btih:".data ++ h.data) :: trs.map (fun t => "tr=".data ++ t.data) := by
      have hshape : "xt=urn:btih:".data ++ h.data ++
          (trs.map (fun t => "&tr=".data ++ t.data)).flatten =
          ("xt=urn:btih:".data ++ h.data) ++
            ((trs.map (fun t => "tr=".data ++ t.data)).map (fun s => '&' :: s)).flatten := by
        rw [List.map_map]
        congr 1
      rw [hshape]
      apply splitOnChar_concat
      · intro c hc
        rcases List.mem_append.mp hc with hc | hc
        · revert hc
          rw [show ("xt=urn:btih:".data : List Char) =
            ['x', 't', '=', 'u', 'r', 'n', ':', 'b', 't', 'i', 'h', ':'] from by decide]
          intro hc
          fin_cases hc <;> decide
        · exact plain_not_amp c (hplain c hc)
      · intro seg hseg c hc
        obtain ⟨t, ht, rfl⟩ := List.mem_map.mp hseg
        rcases List.mem_append.mp hc with hc | hc
        · revert hc
          rw [show ("tr=".data : List Char) = ['t', 'r', '='] from by decide]
          intro hc
          fin_cases hc <;> decide
        · exact plain_not_amp c (htrs t ht c hc)
    have hvalplain : ∀ c ∈ "urn:btih:".data ++ h.data, urlPlain c = true := by
      intro c hc
      rcases List.mem_append.mp hc with hc | hc
      · revert hc
        rw [show ("urn:btih:".data : List Char) =
          ['u', 'r', 'n', ':', 'b', 't', 'i', 'h', ':'] from by decide]
        intro hc
        fin_cases hc <;> decide
      · exact hplain c hc
    have hparams : parseQueryString (String.mk ("xt=urn:btih:".data ++ h.data ++
        (trs.map (fun t => "&tr=".data ++ t.data)).flatten)) =
        ⟨"xt", String.mk ("urn:btih:".data ++ h.data)⟩ ::
          trs.map (fun t => ⟨"tr", t⟩) := by
      unfold parseQueryString
      rw [show (String.mk ("xt=urn:btih:".data ++ h.data ++
        (trs.map (fun t => "&tr=".data ++ t.data)).flatten)).data =
        "xt=urn:btih:".data ++ h.data ++
          (trs.map (fun t => "&tr=".data ++ t.data)).flatten from rfl]
      rw [hsegs]
      rw [List.filter_cons_of_pos (by
        rw [show ("xt=urn:btih:".data : List Char) =
          ['x', 't', '=', 'u', 'r', 'n', ':', 'b', 't', 'i', 'h', ':'] from by decide]
        simp)]
      rw [List.filter_map]
      rw [List.filter_eq_self.mpr (by
        intro t _
        show (!("tr=".data ++ t.data).isEmpty) = true
        rw [show ("tr=".data : List Char) = ['t', 'r', '='] from by decide]
        simp)]
      rw [List.map_cons, List.map_map]
      have hxtseg : (⟨String.mk (formDecode
          (splitKV ("xt=urn:btih:".data ++ h.data)).1),
          String.mk (formDecode (splitKV ("xt=urn:btih:".data ++ h.data)).2)⟩ : QParam) =
          ⟨"xt", String.mk ("urn:btih:".data ++ h.data)⟩ := by
        rw [show "xt=urn:btih:".data ++ h.data =
          "xt".data ++ '=' :: ("urn:btih:".data ++ h.data) from by
            rw [show ("xt=urn:btih:".data : List Char) =
              "xt".data ++ '=' :: "urn:btih:".data from by decide]
            simp]
        rw [splitKV_eq _ _ (by
          rw [show ("xt".data : List Char) = ['x', 't'] from by decide]
          intro c hc
          fin_cases hc <;> decide)]
        show (⟨String.mk (formDecode "xt".data),
          String.mk (formDecode ("urn:btih:".data ++ h.data))⟩ : QParam) = _
        rw [formDecode_plain _ (by decide), formDecode_plain _ hvalplain]
      rw [hxtseg]
      congr 1
      apply List.map_congr_left
      intro t ht
      show (⟨String.mk (formDecode (splitKV ("tr=".data ++ t.data)).1),
        String.mk (formDecode (splitKV ("tr=".data ++ t.data)).2)⟩ : QParam) =
        ⟨"tr", t⟩
      rw [show "tr=".data ++ t.data = "tr".data ++ '=' :: t.data from by
        rw [show ("tr=".data : List Char) = "tr".data ++ ['='] from by decide]
        simp]
      rw [splitKV_eq _ _ (by
        rw [show ("tr".data : List Char) = ['t', 'r'] from by decide]
        intro c hc
        fin_cases hc <;> decide)]
      show (⟨String.mk (formDecode "tr".data),
        String.mk (formDecode t.data)⟩ : QParam) = _
      rw [formDecode_plain _ (by decide), formDecode_plain _ (htrs t ht)]
    have hfind : getParam (⟨"xt", String.mk ("urn:btih:".data ++ h.data)⟩ ::
        trs.map (fun t => (⟨"tr", t⟩ : QParam))) "xt" =
        some (String.mk ("urn:btih:".data ++ h.data)) := by
      simp [getParam]
    have htr : getAllParams (⟨"xt", String.mk ("urn:btih:".data ++ h.data)⟩ ::
        trs.map (fun t => (⟨"tr", t⟩ : QParam))) "tr" = trs := by
      unfold getAllParams
      rw [List.filter_cons_of_neg (by simp)]
      rw [List.filter_map]
      have hps : List.filter ((fun p => p.key == "tr") ∘
          fun t => (⟨"tr", t⟩ : QParam)) trs = trs :=
        List.filter_eq_self.mpr (fun t _ => rfl)
      rw [hps]
      rw [List.map_map]
      exact List.map_id trs
    have hcap : findBtihCapture (String.mk ("urn:btih:".data ++ h.data)).data =
        some h.data := by
      show findBtihCapture ("urn:btih:".data ++ h.data) = some h.data
      exact findBtihCapture_exact h.data hlen hhex
    simp only [parseMagnetUri]
    rw [if_neg (by simp [htruthy, hsw])]
    simp only [hquery, hparams, hfind, hcap, Option.some_bind]
    rw [show (['u', 'r', 'n', ':', 'b', 't', 'i', 'h', ':'] : List Char) =
      "urn:btih:".data from by decide]
    rw [htr]

theorem c5_witness :
    hashA.length = 40 ∧ hashA.data.all isHexChar = true ∧
      (∀ t ∈ (["udp://a", "udp://a"] : List String), ∀ c ∈ t.data, urlPlain c = true) ∧
      parseMagnetUri (some (mkMagnet hashA ["udp://a", "udp://a"])) =
        some ⟨some (String.mk (hashA.data.map Char.toLower)),
          (["udp://a", "udp://a"] : List String).filter (fun t => t != "")⟩ :=
  ⟨by decide, by decide, by decide,
    c5_amended.2 hashA ["udp://a", "udp://a"] (by decide) (by decide) (by decide)⟩

/-! ## Pipeline helper lemmas -/

theorem optStrTruthy_iff (o : Option String) :
    optStrTruthy o = true ↔ ∃ u, o = some u ∧ u ≠ "" := by
  cases o with
  | none => simp [optStrTruthy]
  | some u => simp [optStrTruthy]

theorem getRec_setRec (m : CacheMap) (k q : String) (v : CacheStatus) :
    getRec (setRec m k v) q = if q = k then some v else getRec m q := by
  induction m with
  | nil =>
    by_cases hqk : q = k
    · simp [setRec, getRec, hqk]
    · simp [setRec, getRec, hqk, Ne.symm hqk]
  | cons p rest ih =>
    obtain ⟨k1, v1⟩ := p
    by_cases h1 : k1 = k
    · subst h1
      rw [show setRec ((k1, v1) :: rest) k1 v = (k1, v) :: rest from by simp [setRec]]
      by_cases hqk : q = k1
      · simp [getRec, hqk]
      · simp [getRec, hqk, Ne.symm hqk]
    · rw [show setRec ((k1, v1) :: rest) k v = (k1, v1) :: setRec rest k v from by
        simp [setRec, h1]]
      by_cases hq1 : q = k1
      · subst hq1
        simp [getRec, h1]
      · have hlhs : getRec ((k1, v1) :: setRec rest k v) q = getRec (setRec rest k v) q := by
          simp [getRec, Ne.symm hq1]
        have hrhs : getRec ((k1, v1) :: rest) q = getRec rest q := by
          simp [getRec, Ne.symm hq1]
        rw [hlhs, hrhs, ih]

theorem getRec_defaults (hs : List String) :
    ∀ (m : CacheMap) (q : String),
      getRec (hs.foldl (fun acc h2 => setRec acc h2 ⟨false, none⟩) m) q =
        if q ∈ hs then some ⟨false, none⟩ else getRec m q := by
  induction hs with
  | nil => intro m q; simp
  | cons h2 hs ih =>
    intro m q
    rw [List.foldl_cons, ih]
    by_cases hq : q ∈ hs
    · simp [hq]
    · by_cases hqh : q = h2
      · simp [hq, hqh, getRec_setRec]
      · simp [hq, hqh, getRec_setRec]

theorem getRec_nil (q : String) : getRec [] q = none := rfl

theorem checkBulk_failure (hs : List String) (o : BulkOutcome)
    (hfail : bulkFailure o hs) (q : String) :
    getRec (checkPremiumizeCacheBulk hs o) q =
      if q ∈ hs then some ⟨false, none⟩ else none := by
  unfold checkPremiumizeCacheBulk
  by_cases hemp : hs.isEmpty
  · rw [List.isEmpty_iff] at hemp
    subst hemp
    simp [getRec]
  · have hemp2 : hs.isEmpty = false := by simpa using hemp
    simp only [hemp2, Bool.false_eq_true, if_false]
    have hdef : ∀ q2 : String,
        getRec (hs.foldl (fun m h2 => setRec m h2 ⟨false, none⟩) []) q2 =
          if q2 ∈ hs then some ⟨false, none⟩ else none := by
      intro q2
      rw [getRec_defaults hs [] q2, getRec_nil]
    cases o with
    | networkError => exact hdef q
    | httpError => exact hdef q
    | parseError => exact hdef q
    | payload p =>
      unfold bulkFailure at hfail
      cases hresp : p.response with
      | none => simp only [hresp]; exact hdef q
      | some arr =>
        have hcond : (p.status == "success" && arr.length == hs.length) = false := by
          rcases hfail with hstat | hnone | hlen
          · simp [hstat]
          · rw [hresp] at hnone; exact absurd hnone (by simp)
          · simp [hlen arr hresp]
        simp only [hresp, hcond, Bool.false_eq_true, if_false]
        exact hdef q

theorem bulkCacheMap_failure (a : StreamArgs)
    (hfail : bulkFailure a.bulk (infoHashesToCheck a.searchResults)) (q : String) :
    getRec (bulkCacheMap a) q = none ∨
      getRec (bulkCacheMap a) q = some ⟨false, none⟩ := by
  unfold bulkCacheMap
  by_cases hk : optStrTruthy a.config.premiumizeApiKey = true
  · simp only [hk, if_true]
    by_cases hlen0 : (infoHashesToCheck a.searchResults).length > 0
    · simp only [hlen0, if_true]
      rw [checkBulk_failure _ _ hfail q]
      by_cases hq : q ∈ infoHashesToCheck a.searchResults
      · right; simp [hq]
      · left; simp [hq]
    · simp only [hlen0, if_false]
      left
      rfl
  · have hk2 : optStrTruthy a.config.premiumizeApiKey = false := by simpa using hk
    simp only [hk2, Bool.false_eq_true, if_false]
    left
    rfl

theorem partitionStep_fallback (apiKey : Option String) (m : CacheMap)
    (t : TorrentInfo)
    (hm : ∀ q, getRec m q = none ∨ getRec m q = some ⟨false, none⟩)
    (acc : List (TorrentInfo × CacheStatus) × List TorrentInfo) :
    partitionStep apiKey m acc t = (acc.1, acc.2 ++ [t]) := by
  unfold partitionStep
  by_cases hc : (!optStrTruthy apiKey || !optStrTruthy (candidateHash t)) = true
  · simp [hc]
  · have hc2 : (!optStrTruthy apiKey || !optStrTruthy (candidateHash t)) = false := by
      simpa using hc
    simp only [hc2, Bool.false_eq_true, if_false]
    rcases hm ((candidateHash t).getD "") with hn | hf
    · rw [hn]
    · rw [hf]
      simp

theorem partition_foldl_fallback (apiKey : Option String) (m : CacheMap)
    (hm : ∀ q, getRec m q = none ∨ getRec m q = some ⟨false, none⟩)
    (ts : List TorrentInfo) :
    ∀ acc, ts.foldl (partitionStep apiKey m) acc = (acc.1, acc.2 ++ ts) := by
  induction ts with
  | nil => intro acc; simp
  | cons t ts ih =>
    intro acc
    rw [List.foldl_cons, partitionStep_fallback apiKey m t hm acc, ih]
    simp

theorem streamForFallback_some (p : ParsedId) (trk : List String) (t : TorrentInfo)
    (s : Stream) (h : streamForFallback p trk t = some s) :
    ∃ pm ih0, s = mkFallbackStream p trk t pm ih0 := by
  unfold streamForFallback at h
  by_cases hmag : optStrTruthy t.magnetUrl = true
  · simp only [hmag, if_true] at h
    cases hpm : parseMagnetUri t.magnetUrl with
    | none =>
      rw [hpm] at h
      exact absurd h (by simp)
    | some pm =>
      rw [hpm] at h
      dsimp only at h
      by_cases hg : (!strTruthy t.title && !optStrTruthy pm.infoHash) = true
      · rw [if_pos hg] at h
        exact absurd h (by simp)
      · rw [if_neg hg] at h
        exact ⟨some pm, pm.infoHash, ((Option.some.injEq _ _).mp h).symm⟩
  · have hmag2 : optStrTruthy t.magnetUrl = false := by simpa using hmag
    simp only [hmag2, Bool.false_eq_true, if_false] at h
    by_cases hg : (!strTruthy t.title && !optStrTruthy (none : Option String)) = true
    · rw [if_pos hg] at h
      exact absurd h (by simp)
    · rw [if_neg hg] at h
      exact ⟨none, none, ((Option.some.injEq _ _).mp h).symm⟩

theorem mkFallbackStream_fields (p : ParsedId) (trk : List String) (t : TorrentInfo)
    (pm : Option ParsedMagnetUri) (ih0 : Option String) :
    (mkFallbackStream p trk t pm ih0).url = none ∧
    (mkFallbackStream p trk t pm ih0).name = "[TORRENT] FW Bitmagnet" ∧
    (mkFallbackStream p trk t pm ih0).title ≠ "" := by
  refine ⟨rfl, rfl, ?_⟩
  exact append_mid_newline_ne_empty _ _

theorem processPremiumizeCandidate_some (dl : String → String → Option String)
    (t : TorrentInfo) (cs : CacheStatus) (p : ParsedId) (tt : Option String)
    (s : Stream) (h : processPremiumizeCandidate dl t cs p tt = some s) :
    s.infoHash = none ∧ ∃ u, s.url = some u ∧ u ≠ "" := by
  unfold processPremiumizeCandidate at h
  by_cases hg : (!optStrTruthy (candidateHash t) || !optStrTruthy t.magnetUrl) = true
  · simp only [hg, if_true] at h
    exact absurd h (by simp)
  · have hg2 : (!optStrTruthy (candidateHash t) || !optStrTruthy t.magnetUrl) = false := by
      simpa using hg
    simp only [hg2, Bool.false_eq_true, if_false] at h
    cases hdl : dl (t.magnetUrl.getD "") (premSearchQuery p tt t) with
    | none =>
      rw [hdl] at h
      exact absurd h (by simp)
    | some link =>
      rw [hdl] at h
      dsimp only at h
      by_cases hl : (link != "") = true
      · rw [if_pos hl] at h
        obtain rfl := ((Option.some.injEq _ _).mp h).symm
        exact ⟨rfl, link, rfl, by simpa using hl⟩
      · rw [if_neg hl] at h
        exact absurd h (by simp)

theorem premiumizeStreams_infoHash (a : StreamArgs) (s : Stream)
    (h : s ∈ premiumizeStreams a) : s.infoHash = none := by
  unfold premiumizeStreams at h
  obtain ⟨o, ho, hid⟩ := List.mem_filterMap.mp h
  obtain ⟨tc, htc, hf⟩ := List.mem_map.mp ho
  have hps : processPremiumizeCandidate a.directLink tc.1 tc.2 a.parsedId a.tmdbTitle =
      some s := by
    rw [hf]
    exact hid
  exact (processPremiumizeCandidate_some _ _ _ _ _ _ hps).1

theorem jsMapDedup_subset (l : List Stream) (s : Stream) (h : s ∈ jsMapDedup l) :
    s ∈ l := by
  unfold jsMapDedup at h
  obtain ⟨k, _, hg⟩ := List.mem_filterMap.mp h
  exact List.mem_of_mem_filter (getLast?_mem hg)

/-! ## C1: total bulk cache-check failure -/

/-- C1: when the bulk cache-status call fails entirely (network error,
non-success status, unparseable or mismatched body) and every candidate
has a parseable info hash, zero Premiumize streams are produced, every
candidate appears in the fallback set in its original position, and no
stream of the final output carries a URL — the failure is absorbed by the
bulk checker, which returns the all-miss default map instead of raising. -/
theorem c1_bulk_failure_all_fallback (a : StreamArgs)
    (_hall : ∀ t ∈ a.searchResults, optStrTruthy (candidateHash t) = true)
    (hfail : bulkFailure a.bulk (infoHashesToCheck a.searchResults)) :
    premiumizeStreams a = [] ∧ finalFallback a = a.searchResults ∧
      ∀ s ∈ createStreamsFromTorrents a, s.url = none := by
  have hm := bulkCacheMap_failure a hfail
  have hpart : partitionResults a = ([], a.searchResults) := by
    unfold partitionResults
    rw [partition_foldl_fallback _ _ hm a.searchResults ([], [])]
    simp
  have hcand : premCandidates a = [] := by
    unfold premCandidates
    rw [hpart]
  have hfb : initialFallback a = a.searchResults := by
    unfold initialFallback
    rw [hpart]
  have hps : premiumizeStreams a = [] := by
    unfold premiumizeStreams
    rw [hcand]
    rfl
  have hff : finalFallback a = a.searchResults := by
    unfold finalFallback
    rw [hfb, hcand]
    simp
  refine ⟨hps, hff, ?_⟩
  intro s hs
  unfold createStreamsFromTorrents at hs
  rw [hps] at hs
  simp only [List.nil_append] at hs
  have hs2 := (List.mem_filter.mp hs).1
  have hs3 := jsMapDedup_subset _ _ hs2
  unfold fallbackStreams at hs3
  obtain ⟨t, _, hsf⟩ := List.mem_filterMap.mp hs3
  obtain ⟨pm, ih0, rfl⟩ := streamForFallback_some _ _ _ _ hsf
  exact (mkFallbackStream_fields _ _ _ _ _).1

theorem c1_witness :
    (∀ t ∈ c1Args.searchResults, optStrTruthy (candidateHash t) = true) ∧
      bulkFailure c1Args.bulk (infoHashesToCheck c1Args.searchResults) ∧
      (premiumizeStreams c1Args = [] ∧ finalFallback c1Args = c1Args.searchResults ∧
        ∀ s ∈ createStreamsFromTorrents c1Args, s.url = none) :=
  ⟨by decide, trivial, c1_bulk_failure_all_fallback c1Args (by decide) trivial⟩

/-! ## Deduplication lemmas -/

theorem dedupKeepFirstAux_subset {α : Type} [BEq α] (l : List α) :
    ∀ (seen : List α) (x : α), x ∈ dedupKeepFirstAux seen l → x ∈ l := by
  induction l with
  | nil => intro seen x hx; simp [dedupKeepFirstAux] at hx
  | cons y ys ih =>
    intro seen x hx
    unfold dedupKeepFirstAux at hx
    by_cases hc : seen.contains y
    · rw [if_pos hc] at hx
      exact List.mem_cons_of_mem y (ih seen x hx)
    · rw [if_neg hc] at hx
      rcases List.mem_cons.mp hx with rfl | hx
      · exact List.mem_cons_self x ys
      · exact List.mem_cons_of_mem y (ih (seen ++ [y]) x hx)

theorem dedupKeepFirst_subset {α : Type} [BEq α] (l : List α) (x : α)
    (h : x ∈ dedupKeepFirst l) : x ∈ l :=
  dedupKeepFirstAux_subset l [] x h

theorem dedupKeepFirstAux_mem {α : Type} [BEq α] [LawfulBEq α] (l : List α) :
    ∀ (seen : List α) (x : α), x ∈ l → x ∈ dedupKeepFirstAux seen l ∨ x ∈ seen := by
  induction l with
  | nil => intro seen x hx; simp at hx
  | cons y ys ih =>
    intro seen x hx
    unfold dedupKeepFirstAux
    by_cases hc : seen.contains y
    · rw [if_pos hc]
      rcases List.mem_cons.mp hx with rfl | hx
      · exact Or.inr (List.elem_iff.mp hc)
      · exact ih seen x hx
    · rw [if_neg hc]
      rcases List.mem_cons.mp hx with rfl | hx
      · exact Or.inl (List.mem_cons_self x _)
      · rcases ih (seen ++ [y]) x hx with hin | hsn
        · exact Or.inl (List.mem_cons_of_mem y hin)
        · rcases List.mem_append.mp hsn with hs | hs
          · exact Or.inr hs
          · simp only [List.mem_singleton] at hs
            subst hs
            exact Or.inl (List.mem_cons_self x _)

theorem dedupKeepFirst_mem {α : Type} [BEq α] [LawfulBEq α] (l : List α) (x : α)
    (h : x ∈ l) : x ∈ dedupKeepFirst l := by
  rcases dedupKeepFirstAux_mem l [] x h with hin | hsn
  · exact hin
  · simp at hsn

theorem dedupKeepFirstAux_nodup {α : Type} [BEq α] [LawfulBEq α] (l : List α) :
    ∀ seen : List α, (dedupKeepFirstAux seen l).Nodup ∧
      ∀ x ∈ dedupKeepFirstAux seen l, x ∉ seen := by
  induction l with
  | nil => intro seen; simp [dedupKeepFirstAux]
  | cons y ys ih =>
    intro seen
    unfold dedupKeepFirstAux
    by_cases hc : seen.contains y
    · rw [if_pos hc]
      exact ih seen
    · rw [if_neg hc]
      obtain ⟨hnd, havoid⟩ := ih (seen ++ [y])
      constructor
      · refine List.nodup_cons.mpr ⟨?_, hnd⟩
        intro hyin
        exact havoid y hyin (by simp)
      · intro x hx
        rcases List.mem_cons.mp hx with rfl | hx
        · intro hxs
          exact (by simpa using hc : ¬ x ∈ seen) hxs
        · intro hxs
          exact havoid x hx (by simp [hxs])

theorem dedupKeepFirst_nodup {α : Type} [BEq α] [LawfulBEq α] (l : List α) :
    (dedupKeepFirst l).Nodup :=
  (dedupKeepFirstAux_nodup l []).1

theorem getLast_filter_hash (l : List Stream) (q : Option String) (s : Stream)
    (h : (l.filter (fun x => x.infoHash == q)).getLast? = some s) : s.infoHash = q := by
  have hmem := getLast?_mem h
  have hq := (List.mem_filter.mp hmem).2
  simpa using hq

theorem filter_filterMap_ne (l : List Stream) (k : Option String)
    (ks : List (Option String)) (hk : k ∉ ks) :
    (ks.filterMap (fun q => (l.filter (fun s => s.infoHash == q)).getLast?)).filter
      (fun s => s.infoHash == k) = [] := by
  rw [List.filter_eq_nil_iff]
  intro s hs
  obtain ⟨q, hq, hg⟩ := List.mem_filterMap.mp hs
  have hsq := getLast_filter_hash l q s hg
  simp only [hsq, beq_iff_eq]
  intro heq
  subst heq
  exact hk hq

theorem filterMap_getLast_filter (l : List Stream) (k : Option String)
    (keys : List (Option String)) :
    keys.Nodup → k ∈ keys →
      (keys.filterMap (fun q => (l.filter (fun s => s.infoHash == q)).getLast?)).filter
        (fun s => s.infoHash == k) =
      ((l.filter (fun s => s.infoHash == k)).getLast?).toList := by
  induction keys with
  | nil =>
    intro _ hk
    simp at hk
  | cons q ks ih =>
    intro hnd hk
    rw [List.filterMap_cons]
    by_cases hqk : q = k
    · subst hqk
      have hknotin : q ∉ ks := (List.nodup_cons.mp hnd).1
      cases hg : (l.filter (fun s => s.infoHash == q)).getLast? with
      | none =>
        simp only [Option.toList_none]
        exact filter_filterMap_ne l q ks hknotin
      | some s =>
        simp only [Option.toList_some]
        rw [List.filter_cons_of_pos (by simp [getLast_filter_hash l q s hg])]
        rw [filter_filterMap_ne l q ks hknotin]
    · have hkks : k ∈ ks := by
        rcases List.mem_cons.mp hk with rfl | hx
        · exact absurd rfl hqk
        · exact hx
      have htail := ih (List.nodup_cons.mp hnd).2 hkks
      cases hg : (l.filter (fun s => s.infoHash == q)).getLast? with
      | none => exact htail
      | some s =>
        rw [List.filter_cons_of_neg (by
          simp [getLast_filter_hash l q s hg]
          exact fun heq => hqk heq)]
        exact htail

theorem filter_jsMapDedup (l : List Stream) (k : Option String) :
    (jsMapDedup l).filter (fun s => s.infoHash == k) =
      ((l.filter (fun s => s.infoHash == k)).getLast?).toList := by
  by_cases hk : k ∈ streamKeys l
  · exact filterMap_getLast_filter l k (streamKeys l) (dedupKeepFirst_nodup _) hk
  · unfold jsMapDedup
    rw [filter_filterMap_ne l k _ hk]
    have hnm : k ∉ l.map (fun s => s.infoHash) := by
      intro hmem
      exact hk (dedupKeepFirst_mem _ k hmem)
    have hfil : l.filter (fun s => s.infoHash == k) = [] := by
      rw [List.filter_eq_nil_iff]
      intro s hs
      simp only [beq_iff_eq]
      intro heq
      exact hnm (List.mem_map.mpr ⟨s, hs, heq⟩)
    rw [hfil]
    rfl

theorem jsMapDedup_map_infoHash (l : List Stream) :
    (jsMapDedup l).map (fun s => s.infoHash) = streamKeys l := by
  unfold jsMapDedup
  have hsub : ∀ k ∈ streamKeys l, k ∈ l.map (fun s => s.infoHash) := fun k hk =>
    dedupKeepFirst_subset _ k hk
  generalize streamKeys l = keys at hsub ⊢
  induction keys with
  | nil => rfl
  | cons k ks ih =>
    rw [List.filterMap_cons]
    have hkin : k ∈ l.map (fun s => s.infoHash) := hsub k (by simp)
    obtain ⟨s0, hs0, hkey⟩ := List.mem_map.mp hkin
    have hne : l.filter (fun s => s.infoHash == k) ≠ [] := by
      intro hnil
      have : s0 ∈ l.filter (fun s => s.infoHash == k) :=
        List.mem_filter.mpr ⟨hs0, by simp [hkey]⟩
      rw [hnil] at this
      simp at this
    cases hg : (l.filter (fun s => s.infoHash == k)).getLast? with
    | none => exact absurd (List.getLast?_eq_none_iff.mp hg) hne
    | some s =>
      rw [List.map_cons]
      rw [getLast_filter_hash l k s hg]
      rw [ih (fun q hq => hsub q (by simp [hq]))]

/-! ## C2: output invariants and assembly order -/

/-- C2: every stream of the final output carries either a non-empty URL
(direct variant) or a non-empty info hash with a title under the torrent
branding (torrent variant) — anything else is filtered out and never
emitted; the output is the resolved Premiumize streams followed by the
deduplicated fallback streams, filtered by that gate; and the deduplicated
fallback streams carry the distinct info hashes in the order of their
first occurrence. -/
theorem c2_output_invariants (a : StreamArgs) :
    (∀ s ∈ createStreamsFromTorrents a,
        (∃ u, s.url = some u ∧ u ≠ "") ∨
        (s.name = "[TORRENT] FW Bitmagnet" ∧
          (∃ hh, s.infoHash = some hh ∧ hh ≠ "") ∧ s.title ≠ "")) ∧
    createStreamsFromTorrents a =
      (premiumizeStreams a ++ jsMapDedup (fallbackStreams a)).filter validStream ∧
    (jsMapDedup (fallbackStreams a)).map (fun s => s.infoHash) =
      dedupKeepFirst ((fallbackStreams a).map (fun s => s.infoHash)) := by
  refine ⟨?_, rfl, jsMapDedup_map_infoHash _⟩
  intro s hs
  have hv := (List.mem_filter.mp hs).2
  unfold validStream at hv
  rw [Bool.or_eq_true] at hv
  rcases hv with hurl | hrest
  · exact Or.inl ((optStrTruthy_iff _).mp hurl)
  · have h3 : (s.name = "[TORRENT] FW Bitmagnet" ∧ optStrTruthy s.infoHash = true) ∧
        strTruthy s.title = true := by
      simpa [Bool.and_eq_true] using hrest
    refine Or.inr ⟨h3.1.1, (optStrTruthy_iff _).mp h3.1.2, ?_⟩
    simpa [strTruthy] using h3.2

theorem c2_witness :
    (∀ s ∈ createStreamsFromTorrents c3Args,
        (∃ u, s.url = some u ∧ u ≠ "") ∨
        (s.name = "[TORRENT] FW Bitmagnet" ∧
          (∃ hh, s.infoHash = some hh ∧ hh ≠ "") ∧ s.title ≠ "")) ∧
    createStreamsFromTorrents c3Args =
      (premiumizeStreams c3Args ++ jsMapDedup (fallbackStreams c3Args)).filter
        validStream ∧
    (jsMapDedup (fallbackStreams c3Args)).map (fun s => s.infoHash) =
      dedupKeepFirst ((fallbackStreams c3Args).map (fun s => s.infoHash)) :=
  c2_output_invariants c3Args

/-! ## C3: info-hash deduplication -/

/-- C3 counterexample: two fallback candidates share one info hash, the
first titled A and the second titled B; the single output stream is built
from the second candidate, so the Map-based deduplication keeps the last
occurrence and discards the first — not the other way round as claimed. -/
theorem c3_counterexample :
    (fallbackStreams c3Args).map (fun s => s.title) =
      ["A\n💾 0 Bytes | 👤 5 | 📺 720p", "B\n💾 0 Bytes | 👤 5 | 📺 720p"] ∧
    (createStreamsFromTorrents c3Args).map (fun s => s.title) =
      ["B\n💾 0 Bytes | 👤 5 | 📺 720p"] ∧
    ("B\n💾 0 Bytes | 👤 5 | 📺 720p" : String) ≠ "A\n💾 0 Bytes | 👤 5 | 📺 720p" :=
  ⟨by decide, by decide, by decide⟩

/-- C3 amended: when some fallback stream carries the non-empty info hash
h, exactly one stream with that hash appears in the final output, and it
is the stream built from the LAST same-hash fallback occurrence (placed at
the hash's first-occurrence position): the Map deduplication keeps the
last occurrence, discarding earlier ones. -/
theorem c3_amended (a : StreamArgs) (hh : String) (hne : hh ≠ "")
    (hmem : some hh ∈ (fallbackStreams a).map (fun s => s.infoHash)) :
    ((createStreamsFromTorrents a).filter
      (fun s => s.infoHash == some hh)).length = 1 ∧
    (createStreamsFromTorrents a).filter (fun s => s.infoHash == some hh) =
      ((fallbackStreams a).filter (fun s => s.infoHash == some hh)).getLast?.toList := by
  have hswap : (createStreamsFromTorrents a).filter (fun s => s.infoHash == some hh) =
      ((premiumizeStreams a ++ jsMapDedup (fallbackStreams a)).filter
        (fun s => s.infoHash == some hh)).filter validStream := by
    unfold createStreamsFromTorrents
    rw [List.filter_filter, List.filter_filter]
    exact List.filter_congr (fun s _ => Bool.and_comm _ _)
  have hprem : (premiumizeStreams a).filter (fun s => s.infoHash == some hh) = [] := by
    rw [List.filter_eq_nil_iff]
    intro s hs
    simp [premiumizeStreams_infoHash a s hs]
  have hlast := filter_jsMapDedup (fallbackStreams a) (some hh)
  obtain ⟨s0, hs0l, hs0key⟩ := List.mem_map.mp hmem
  have hfne : (fallbackStreams a).filter (fun s => s.infoHash == some hh) ≠ [] := by
    intro hnil
    have hin : s0 ∈ (fallbackStreams a).filter (fun s => s.infoHash == some hh) :=
      List.mem_filter.mpr ⟨hs0l, by simp [hs0key]⟩
    rw [hnil] at hin
    simp at hin
  cases hg : ((fallbackStreams a).filter (fun s => s.infoHash == some hh)).getLast? with
  | none => exact absurd (List.getLast?_eq_none_iff.mp hg) hfne
  | some slast =>
    have hmemlast : slast ∈ fallbackStreams a :=
      List.mem_of_mem_filter (getLast?_mem hg)
    have hhash : slast.infoHash = some hh := getLast_filter_hash _ _ _ hg
    have hvalid : validStream slast = true := by
      unfold fallbackStreams at hmemlast
      obtain ⟨t, _, hsf⟩ := List.mem_filterMap.mp hmemlast
      obtain ⟨pm, ih0, rfl⟩ := streamForFallback_some _ _ _ _ hsf
      obtain ⟨hurl, hname, htitle⟩ := mkFallbackStream_fields a.parsedId a.trackers t pm ih0
      unfold validStream
      rw [hurl, hname, hhash]
      simp [optStrTruthy, strTruthy, hne, htitle]
    have hfilter : (createStreamsFromTorrents a).filter
        (fun s => s.infoHash == some hh) = [slast] := by
      rw [hswap, List.filter_append, hprem, List.nil_append, hlast, hg]
      simp [hvalid]
    rw [hfilter]
    exact ⟨rfl, rfl⟩

theorem c3_witness :
    hashA ≠ "" ∧
      some hashA ∈ (fallbackStreams c3Args).map (fun s => s.infoHash) ∧
      (((createStreamsFromTorrents c3Args).filter
          (fun s => s.infoHash == some hashA)).length = 1 ∧
        (createStreamsFromTorrents c3Args).filter
          (fun s => s.infoHash == some hashA) =
          ((fallbackStreams c3Args).filter
            (fun s => s.infoHash == some hashA)).getLast?.toList) :=
  ⟨by decide, by decide, c3_amended c3Args hashA (by decide) (by decide)⟩

/-! ## C6 and C10: the best-file selector -/

theorem selStep_eq (pats : Option (List (List Char))) (st : Option TFile × Option TFile)
    (f : TFile) :
    selStep pats st f =
      ((if isVideoFile f && fileMatchesPatterns pats f then pickLarger st.1 f else st.1),
       (if isVideoFile f then pickLarger st.2 f else st.2)) := by
  unfold selStep
  by_cases hv : isVideoFile f <;> simp [hv]

theorem foldl_selStep_pair (pats : Option (List (List Char))) (fs : List TFile)
    (a b : Option TFile) :
    fs.foldl (selStep pats) (a, b) =
      (fs.foldl (fun acc f =>
          if isVideoFile f && fileMatchesPatterns pats f then pickLarger acc f else acc) a,
       fs.foldl (fun acc f => if isVideoFile f then pickLarger acc f else acc) b) := by
  induction fs generalizing a b with
  | nil => rfl
  | cons f fs ih =>
    simp only [List.foldl_cons, selStep_eq]
    exact ih _ _

theorem foldl_pickLarger_filter (p : TFile → Bool) (fs : List TFile) (acc : Option TFile) :
    (fs.filter p).foldl pickLarger acc =
      fs.foldl (fun a f => if p f then pickLarger a f else a) acc := by
  induction fs generalizing acc with
  | nil => rfl
  | cons f fs ih =>
    by_cases hp : p f
    · simp [List.filter_cons, hp, ih]
    · simp [List.filter_cons, hp, ih]

/-- The single selection loop computes the two filtered largest-element
folds of the specification. -/
theorem findBestFileIndex_eq_spec (files : Option (List TFile))
    (season episode : Option Int) :
    findBestFileIndex files season episode = bestFileSpec files season episode := by
  cases files with
  | none => rfl
  | some fs =>
    unfold findBestFileIndex bestFileSpec
    by_cases h0 : fs.length = 0
    · rw [List.length_eq_zero] at h0
      subst h0
      simp
    · have h0b : (fs.length == 0) = false := by simp [h0]
      simp only [h0b, Bool.false_eq_true, if_false]
      rw [foldl_selStep_pair, foldl_pickLarger_filter, foldl_pickLarger_filter]

theorem foldl_pickLarger_mem (fs : List TFile) :
    ∀ (acc : Option TFile) (f : TFile),
      fs.foldl pickLarger acc = some f → some f = acc ∨ f ∈ fs := by
  induction fs with
  | nil => intro acc f h; exact Or.inl h.symm
  | cons g gs ih =>
    intro acc f h
    rw [List.foldl_cons] at h
    rcases ih (pickLarger acc g) f h with hacc | hmem
    · unfold pickLarger at hacc
      cases acc with
      | none =>
        simp only [Option.some.injEq] at hacc
        exact Or.inr (by simp [hacc])
      | some a =>
        by_cases hsz : g.size > a.size
        · simp only [hsz, if_true, Option.some.injEq] at hacc
          exact Or.inr (by simp [hacc])
        · simp only [hsz, if_false, Option.some.injEq] at hacc
          exact Or.inl (by simp [hacc])
    · exact Or.inr (List.mem_cons_of_mem g hmem)

/-- C6: the selector equals the specification priority — the largest
matching video file when season and episode are given and a match exists,
else the largest video file, else the single listed file, else nothing —
and on the concrete listing the season-episode match at 500 bytes beats
the larger 900-byte file. -/
theorem c6_best_file_selector :
    (∀ (files : Option (List TFile)) (season episode : Option Int),
        findBestFileIndex files season episode = bestFileSpec files season episode) ∧
      findBestFileIndex
          (some [⟨"S01E02.mkv", 500, 0⟩, ⟨"S01E01.mkv", 900, 1⟩])
          (some 1) (some 2) =
        some 0 :=
  ⟨findBestFileIndex_eq_spec, by decide⟩

/-- C10: whenever the selector returns an index, that index is carried by
one of the files in the input listing. -/
theorem c10_index_from_listing (files : Option (List TFile))
    (season episode : Option Int) (i : Nat)
    (h : findBestFileIndex files season episode = some i) :
    ∃ fs, files = some fs ∧ ∃ f ∈ fs, f.index = i := by
  rw [findBestFileIndex_eq_spec] at h
  cases files with
  | none => simp [bestFileSpec] at h
  | some fs =>
    refine ⟨fs, rfl, ?_⟩
    simp only [bestFileSpec] at h
    cases hm1 : (fs.filter (fun f =>
        isVideoFile f && fileMatchesPatterns (patsOf season episode) f)).foldl
        pickLarger none with
    | some f =>
      rw [hm1] at h
      simp only [Option.some.injEq] at h
      rcases foldl_pickLarger_mem _ none f hm1 with habs | hmem
      · exact absurd habs.symm (by simp)
      · exact ⟨f, List.mem_of_mem_filter hmem, h⟩
    | none =>
      rw [hm1] at h
      cases hm2 : (fs.filter isVideoFile).foldl pickLarger none with
      | some f =>
        rw [hm2] at h
        simp only [Option.some.injEq] at h
        rcases foldl_pickLarger_mem _ none f hm2 with habs | hmem
        · exact absurd habs.symm (by simp)
        · exact ⟨f, List.mem_of_mem_filter hmem, h⟩
      | none =>
        rw [hm2] at h
        match fs, h with
        | [f], h =>
          simp only [Option.some.injEq] at h
          exact ⟨f, by simp, h⟩

theorem c10_witness :
    findBestFileIndex (some [⟨"a.mkv", 100, 4⟩]) none none = some 4 ∧
      ∃ fs, (some [(⟨"a.mkv", 100, 4⟩ : TFile)] : Option (List TFile)) = some fs ∧
        ∃ f ∈ fs, f.index = 4 :=
  ⟨by decide, c10_index_from_listing _ none none 4 (by decide)⟩

/-! ## C7: formatBytes -/

theorem unitIdxAux_spec (fuel : Nat) :
    ∀ b : Nat, 0 < b → b ≤ fuel →
      1024 ^ unitIdxAux fuel b ≤ b ∧ b < 1024 ^ (unitIdxAux fuel b + 1) := by
  induction fuel with
  | zero => intro b hb hle; omega
  | succ fuel ih =>
    intro b hb hle
    by_cases hlt : b < 1024
    · simp only [unitIdxAux, hlt, if_true]
      constructor
      · simpa using hb
      · simpa using hlt
    · simp only [unitIdxAux, hlt, if_false]
      have hdivpos : 0 < b / 1024 := Nat.div_pos (le_of_not_lt hlt) (by norm_num)
      have hdivlt : b / 1024 < b := Nat.div_lt_self hb (by norm_num)
      obtain ⟨h1, h2⟩ := ih (b / 1024) hdivpos (by omega)
      have hmod := Nat.div_add_mod b 1024
      have hmodlt : b % 1024 < 1024 := Nat.mod_lt _ (by norm_num)
      constructor
      · calc 1024 ^ (unitIdxAux fuel (b / 1024) + 1)
            = 1024 ^ unitIdxAux fuel (b / 1024) * 1024 := by rw [pow_succ]
          _ ≤ (b / 1024) * 1024 := Nat.mul_le_mul_right _ h1
          _ ≤ b := by omega
      · calc b < (b / 1024 + 1) * 1024 := by omega
          _ ≤ 1024 ^ (unitIdxAux fuel (b / 1024) + 1) * 1024 := by
              exact Nat.mul_le_mul_right _ (by omega)
          _ = 1024 ^ (unitIdxAux fuel (b / 1024) + 1 + 1) := by
              rw [pow_succ (1024 : Nat) (unitIdxAux fuel (b / 1024) + 1)]

theorem unitIdx_spec (b : Nat) (hb : 0 < b) :
    1024 ^ unitIdx b ≤ b ∧ b < 1024 ^ (unitIdx b + 1) :=
  unitIdxAux_spec b b hb le_rfl

/-- C7: formatBytes renders 0 and 1536 as specified, and every positive
count below 1024 to the ninth is rendered in the largest of the nine
base-1024 units in which its value is at least one, the number being that
value rounded to two decimals. -/
theorem c7_format_bytes :
    formatBytes 0 = "0 Bytes" ∧ formatBytes 1536 = "1.5 KB" ∧
    ∀ b : Nat, 0 < b → b < 1024 ^ 9 →
      1024 ^ unitIdx b ≤ b ∧ b < 1024 ^ (unitIdx b + 1) ∧ unitIdx b ≤ 8 ∧
        formatBytes b =
          renderFixed (roundHalfUp (b * 10 ^ 2) (1024 ^ unitIdx b)) 2 ++ " " ++
            byteSizes.getD (unitIdx b) "undefined" := by
  refine ⟨by decide, by decide, ?_⟩
  intro b hb hub
  obtain ⟨h1, h2⟩ := unitIdx_spec b hb
  have hle : unitIdx b ≤ 8 := by
    by_contra hgt
    push_neg at hgt
    have h9 : (1024 : Nat) ^ 9 ≤ 1024 ^ unitIdx b :=
      Nat.pow_le_pow_right (by norm_num) (by omega)
    omega
  refine ⟨h1, h2, hle, ?_⟩
  have hz : (b == 0) = false := by simp; omega
  unfold formatBytes
  rw [hz]
  simp

theorem c7_witness :
    (0 : Nat) < 2048 ∧ (2048 : Nat) < 1024 ^ 9 ∧
      (1024 ^ unitIdx 2048 ≤ 2048 ∧ 2048 < 1024 ^ (unitIdx 2048 + 1) ∧
        unitIdx 2048 ≤ 8 ∧
        formatBytes 2048 =
          renderFixed (roundHalfUp (2048 * 10 ^ 2) (1024 ^ unitIdx 2048)) 2 ++ " " ++
            byteSizes.getD (unitIdx 2048) "undefined") :=
  ⟨by norm_num, by norm_num, c7_format_bytes.2.2 2048 (by norm_num) (by norm_num)⟩

/-! ## C8: episode query format and season-only retry -/

/-- C8 counterexample: with title X, year 2020, season 1 and episode 5 the
first query sent to the backend is X 2020 S01E05 — there is no space
between the season and episode tokens, so the query is not the claimed
X 2020 S01 E05. -/
theorem c8_counterexample :
    (fetchAndSearchTorrents ⟨"tt0111161", some 1, some 5, SearchType.series⟩
        (some "k") (some ⟨"X", some 2020⟩) (fun _ => [])).2.head? =
      some "X 2020 S01E05" ∧
    ("X 2020 S01E05" : String) ≠ "X 2020 S01 E05" :=
  ⟨by decide, by decide⟩

/-- C8 amended: when the title lookup succeeds for a series request with
both season and episode, the query sent is baseQuery followed by a space,
S, the zero-padded season, then immediately E and the zero-padded episode
(no space between the two tokens); if that search returns nothing, the
backend is queried exactly once more with the season-only query, and that
second result is final even when empty. -/
theorem c8_amended (imdb title : String) (year : Option Nat) (s e : Int)
    (key : String) (search : String → List TorrentInfo)
    (hkey : key ≠ "") (htitle : title ≠ "") :
    (fetchAndSearchTorrents ⟨imdb, some s, some e, SearchType.series⟩ (some key)
        (some ⟨title, year⟩) search).2.head? =
      some (title ++ yearSuffix year ++ " S" ++ padStart2 (toString s) ++ "E" ++
        padStart2 (toString e)) ∧
    (search (title ++ yearSuffix year ++ " S" ++ padStart2 (toString s) ++ "E" ++
        padStart2 (toString e)) = [] →
      fetchAndSearchTorrents ⟨imdb, some s, some e, SearchType.series⟩ (some key)
          (some ⟨title, year⟩) search =
        ((if search (title ++ yearSuffix year ++ " S" ++ padStart2 (toString s)) = []
          then none
          else some ⟨search (title ++ yearSuffix year ++ " S" ++ padStart2 (toString s)),
            some title⟩),
         [title ++ yearSuffix year ++ " S" ++ padStart2 (toString s) ++ "E" ++
            padStart2 (toString e),
          title ++ yearSuffix year ++ " S" ++ padStart2 (toString s)])) ∧
    (search (title ++ yearSuffix year ++ " S" ++ padStart2 (toString s) ++ "E" ++
        padStart2 (toString e)) ≠ [] →
      fetchAndSearchTorrents ⟨imdb, some s, some e, SearchType.series⟩ (some key)
          (some ⟨title, year⟩) search =
        (some ⟨search (title ++ yearSuffix year ++ " S" ++ padStart2 (toString s) ++ "E" ++
            padStart2 (toString e)), some title⟩,
         [title ++ yearSuffix year ++ " S" ++ padStart2 (toString s) ++ "E" ++
            padStart2 (toString e)])) := by
  have hkeyb : optStrTruthy (some key) = true := by simpa [optStrTruthy] using hkey
  have htitleb : optStrTruthy (some title) = true := by simpa [optStrTruthy] using htitle
  unfold fetchAndSearchTorrents
  simp only [hkeyb, if_true]
  by_cases hempty : search (title ++ yearSuffix year ++ " S" ++ padStart2 (toString s) ++
      "E" ++ padStart2 (toString e)) = []
  · simp [hempty, htitleb]
  · simp [hempty, htitleb]

theorem c8_witness :
    ("k" : String) ≠ "" ∧ ("X" : String) ≠ "" ∧
      ((fetchAndSearchTorrents ⟨"tt1", some 1, some 5, SearchType.series⟩ (some "k")
          (some ⟨"X", some 2020⟩) c8SearchFn).2.head? =
        some ("X" ++ yearSuffix (some 2020) ++ " S" ++ padStart2 (toString (1 : Int)) ++
          "E" ++ padStart2 (toString (5 : Int))) ∧
      (c8SearchFn ("X" ++ yearSuffix (some 2020) ++ " S" ++ padStart2 (toString (1 : Int)) ++
          "E" ++ padStart2 (toString (5 : Int))) = [] →
        fetchAndSearchTorrents ⟨"tt1", some 1, some 5, SearchType.series⟩ (some "k")
            (some ⟨"X", some 2020⟩) c8SearchFn =
          ((if c8SearchFn ("X" ++ yearSuffix (some 2020) ++ " S" ++
                padStart2 (toString (1 : Int))) = []
            then none
            else some ⟨c8SearchFn ("X" ++ yearSuffix (some 2020) ++ " S" ++
                padStart2 (toString (1 : Int))), some "X"⟩),
           ["X" ++ yearSuffix (some 2020) ++ " S" ++ padStart2 (toString (1 : Int)) ++
              "E" ++ padStart2 (toString (5 : Int)),
            "X" ++ yearSuffix (some 2020) ++ " S" ++ padStart2 (toString (1 : Int))])) ∧
      (c8SearchFn ("X" ++ yearSuffix (some 2020) ++ " S" ++ padStart2 (toString (1 : Int)) ++
          "E" ++ padStart2 (toString (5 : Int))) ≠ [] →
        fetchAndSearchTorrents ⟨"tt1", some 1, some 5, SearchType.series⟩ (some "k")
            (some ⟨"X", some 2020⟩) c8SearchFn =
          (some ⟨c8SearchFn ("X" ++ yearSuffix (some 2020) ++ " S" ++
              padStart2 (toString (1 : Int)) ++ "E" ++ padStart2 (toString (5 : Int))),
            some "X"⟩,
           ["X" ++ yearSuffix (some 2020) ++ " S" ++ padStart2 (toString (1 : Int)) ++
              "E" ++ padStart2 (toString (5 : Int))]))) :=
  ⟨by decide, by decide,
    c8_amended "tt1" "X" (some 2020) 1 5 "k" c8SearchFn (by decide) (by decide)⟩

end FW
